import Mathlib

/-!
Verification of the elimination core of the `graphax` repository
(`src/graphax/core.py`, `src/graphax/transforms/compression.py`).

The edge matrix of a computational graph is embedded as a rectangular
`List (List ℤ)`: the source stores float weights, but every operation it
performs on them is a ring operation or a comparison with 0 or 1, and every
concrete scenario of the claims uses small integer weights, on which float
arithmetic is exact — so `ℤ` is a faithful, fully computable carrier.  The JAX
array-update semantics used by the source are embedded explicitly:

* a negative index is wrapped once by adding the axis size;
* a gather (`.at[...].get()`, basic indexing under `jit`) clamps an
  out-of-bounds index to the valid range;
* a scatter (`.at[...].set/add`, default mode `promise_in_bounds`, or the
  explicit `mode="drop"` used by `vertex_eliminate_gpu`) drops an
  out-of-bounds update;
* `jnp.nonzero(x, size=s, fill_value=f)` lists the indices of the non-zero
  entries in row-major order, truncated to the first `s` of them and padded
  at the end with the fill value up to length `s`.
-/

namespace Graphax

abbrev Mat := List (List ℤ)

def nrows (A : Mat) : ℕ := A.length

def ncols (A : Mat) : ℕ := (A.headD []).length

/-- A rectangular matrix: every row has the (shared) column count. -/
def Rect (A : Mat) : Prop := ∀ row ∈ A, row.length = ncols A

instance (A : Mat) : Decidable (Rect A) := List.decidableBAll _ A

/-- Plain in-bounds read with 0 outside the stored entries. -/
def getE (A : Mat) (r c : ℕ) : ℤ := (A.getD r []).getD c 0

/-- Plain in-bounds write (out-of-bounds `List.set` is the identity). -/
def setE (A : Mat) (r c : ℕ) (v : ℤ) : Mat := A.set r ((A.getD r []).set c v)

/-- JAX index normalization: a negative index wraps once by the axis size. -/
def wrapI (n : ℕ) (i : ℤ) : ℤ := if i < 0 then i + n else i

/-- Scatter index resolution: `some` of the in-bounds position, else `none`
(out-of-bounds updates are dropped). -/
def resolv (n : ℕ) (i : ℤ) : Option ℕ :=
  if 0 ≤ wrapI n i ∧ wrapI n i < n then some (wrapI n i).toNat else none

/-- Gather index resolution: out-of-bounds reads clamp into the axis. -/
def clampI (n : ℕ) (i : ℤ) : ℕ :=
  if wrapI n i < 0 then 0 else min (wrapI n i).toNat (n - 1)

/-- `edges.at[i, j].get()` / basic indexing under `jit`. -/
def jget (A : Mat) (i j : ℤ) : ℤ := getE A (clampI (nrows A) i) (clampI (ncols A) j)

/-- `edges.at[i, j].set(v)`. -/
def jset (A : Mat) (i j : ℤ) (v : ℤ) : Mat :=
  match resolv (nrows A) i, resolv (ncols A) j with
  | some r, some c => setE A r c v
  | _, _ => A

/-- Indices of the non-zero entries of a vector, starting at offset `k`. -/
def nonzeros1From (k : ℕ) : List ℤ → List ℤ
  | [] => []
  | x :: t => if x ≠ 0 then (k : ℤ) :: nonzeros1From (k + 1) t else nonzeros1From (k + 1) t

/-- `jnp.nonzero` of a 1-D vector, before truncation/padding. -/
def nonzeros1 (v : List ℤ) : List ℤ := nonzeros1From 0 v

/-- `jnp.nonzero(v, size=s, fill_value=f)` for a 1-D vector. -/
def nonzeros1Padded (v : List ℤ) (s : ℕ) (f : ℤ) : List ℤ :=
  let l := (nonzeros1 v).take s
  l ++ List.replicate (s - l.length) f

/-- Row-major positions of the non-zero entries, rows starting at `r`. -/
def nonzeroListFrom (r : ℕ) : Mat → List (ℤ × ℤ)
  | [] => []
  | row :: t =>
      (nonzeros1From 0 row).map (fun c => ((r : ℤ), c)) ++ nonzeroListFrom (r + 1) t

/-- Row-major positions of the non-zero entries of the matrix. -/
def nonzeroList (A : Mat) : List (ℤ × ℤ) := nonzeroListFrom 0 A

/-- `jnp.stack(jnp.nonzero(A, size=E, fill_value=-E)).T`: the first `E`
non-zero positions in row-major order, padded with `(-E, -E)`. -/
def nonzerosPadded (A : Mat) (E : ℕ) : List (ℤ × ℤ) :=
  let l := (nonzeroList A).take E
  l ++ List.replicate (E - l.length) (-(E : ℤ), -(E : ℤ))

/-- Meta-information about the computational graph (`GraphInfo` in core.py). -/
structure GraphInfo where
  num_inputs : ℕ
  num_intermediates : ℕ
  num_outputs : ℕ
  num_edges : ℕ
deriving DecidableEq

/-- `make_empty_edges` from core.py. -/
def make_empty_edges (info : GraphInfo) : Mat :=
  List.replicate (info.num_inputs + info.num_intermediates)
    (List.replicate (info.num_intermediates + info.num_outputs) 0)

/-- `make_graph_info` from core.py: the Python code computes
`num_edges = (ni+nv)*(nv+no) - nv*(nv-1)//2` on non-negative ints and then
`int(.5*num_edges)`; for these (non-negative, far below 2^53) values that is
floor division by 2, and `nv*(nv-1)` is even so the inner `//2` is exact. -/
def make_graph_info (ni nv no : ℕ) : GraphInfo :=
  ⟨ni, nv, no, ((ni + nv) * (nv + no) - nv * (nv - 1) / 2) / 2⟩

/-- `add_edge` from core.py: `edges.at[pos[0]+num_inputs-1, pos[1]-1].set(1)`. -/
def add_edge (A : Mat) (pos : ℤ × ℤ) (info : GraphInfo) : Mat :=
  jset A (pos.1 + (info.num_inputs : ℤ) - 1) (pos.2 - 1) 1

/-- Body of the `lax.scan` in `front_eliminate`/`back_eliminate`: if the
predicate `p` holds of the scanned non-zero position `nz`, write
`edges[nz] * edge_val` at the target position (a `.set`, not an `.add`) into
the carried matrix and count one operation; `A1` is the matrix the values are
read from (the input matrix with the eliminated edge already zeroed). -/
def zstep (A1 : Mat) (p : ℤ × ℤ → Bool) (tgt : ℤ × ℤ → ℤ × ℤ) (w : ℤ) :
    Mat × ℕ → ℤ × ℤ → Mat × ℕ := fun carry nz =>
  if p nz then
    (jset carry.1 (tgt nz).1 (tgt nz).2 (jget A1 nz.1 nz.2 * w), carry.2 + 1)
  else carry

/-- Scan predicate of `front_eliminate`: the source label of the scanned
entry equals the destination of the eliminated edge. -/
def front_p (ni tgt : ℤ) : ℤ × ℤ → Bool := fun nz => decide (nz.1 - ni + 1 = tgt)

/-- Scan predicate of `back_eliminate`: the destination label of the scanned
entry equals the source of the eliminated edge. -/
def back_p (tgt : ℤ) : ℤ × ℤ → Bool := fun nz => decide (nz.2 + 1 = tgt)

/-- `front_eliminate` from core.py. -/
def front_eliminate (A : Mat) (edge : ℤ × ℤ) (info : GraphInfo) : Mat × ℕ :=
  let ni : ℤ := info.num_inputs
  let e0 := edge.1 + ni - 1
  let w := jget A e0 (edge.2 - 1)
  let A1 := jset A e0 (edge.2 - 1) 0
  (nonzerosPadded A1 info.num_edges).foldl
    (zstep A1 (front_p ni edge.2) (fun nz => (e0, nz.2)) w) (A1, 0)

/-- `back_eliminate` from core.py. -/
def back_eliminate (A : Mat) (edge : ℤ × ℤ) (info : GraphInfo) : Mat × ℕ :=
  let ni : ℤ := info.num_inputs
  let e1 := edge.2 - 1
  let w := jget A (edge.1 + ni - 1) e1
  let A1 := jset A (edge.1 + ni - 1) e1 0
  (nonzerosPadded A1 info.num_edges).foldl
    (zstep A1 (back_p edge.1) (fun nz => (nz.1, e1)) w) (A1, 0)

/-- Body of the `lax.scan` in `vertex_eliminate`. -/
def vstep (info : GraphInfo) (vertex : ℤ) : Mat × ℕ → ℤ × ℤ → Mat × ℕ :=
  fun carry nz =>
    let ni : ℤ := info.num_inputs
    let i := nz.1 - ni + 1
    let j := nz.2 + 1
    let fr := if j = vertex then front_eliminate carry.1 (i, j) info else (carry.1, 0)
    let bk := if i = vertex then back_eliminate fr.1 (i, j) info else (fr.1, 0)
    (bk.1, carry.2 + (fr.2 + bk.2))

/-- `vertex_eliminate` from core.py. -/
def vertex_eliminate (A : Mat) (vertex : ℤ) (info : GraphInfo) : Mat × ℕ :=
  (nonzerosPadded A info.num_edges).foldl (vstep info vertex) (A, 0)

/-- `edges.at[:, j].get()`: one whole column (gather clamps the index). -/
def getCol (A : Mat) (j : ℤ) : List ℤ :=
  A.map (fun row => row.getD (clampI (ncols A) j) 0)

/-- `edges.at[i, :].get()`: one whole row (gather clamps the index). -/
def getRow (A : Mat) (i : ℤ) : List ℤ := A.getD (clampI (nrows A) i) []

/-- Add `col[r]` to entry `(r, j)` for every row `r` (the column index is
shared; used with the resolved in-bounds column index). -/
def addColList : Mat → List ℤ → ℕ → Mat
  | [], _, _ => []
  | rows, [], _ => rows
  | row :: rt, v :: vt, c => row.set c (row.getD c 0 + v) :: addColList rt vt c

/-- `edges.at[:, j].add(col, mode="drop")`. -/
def jaddCol (A : Mat) (j : ℤ) (col : List ℤ) : Mat :=
  match resolv (ncols A) j with
  | some c => addColList A col c
  | none => A

/-- `edges.at[i, :].set(0)`. -/
def jsetRow0 (A : Mat) (i : ℤ) : Mat :=
  match resolv (nrows A) i with
  | some r => A.set r (List.replicate (A.getD r []).length 0)
  | none => A

/-- `edges.at[:, j].set(0)`. -/
def jsetCol0 (A : Mat) (j : ℤ) : Mat :=
  match resolv (ncols A) j with
  | some c => A.map (fun row => row.set c 0)
  | none => A

/-- `jnp.bool_(edges).astype(jnp.float32)`: clamp entries to 0/1 presence. -/
def boolClamp (A : Mat) : Mat :=
  A.map (List.map (fun x => if x = 0 then 0 else 1))

/-- Body of the `lax.scan` in `vertex_eliminate_gpu`: the update is applied
unconditionally (dropped only when the column index is out of bounds after
wrapping), while the op count is added only for indices `> -1`. -/
def gstep (col : List ℤ) (ops : ℤ) : Mat × ℤ → ℤ → Mat × ℤ := fun carry nz =>
  (jaddCol carry.1 nz col, if (-1 : ℤ) < nz then carry.2 + ops else carry.2)

/-- `vertex_eliminate_gpu` from core.py. -/
def vertex_eliminate_gpu (A : Mat) (vertex : ℤ) (info : GraphInfo) : Mat × ℤ :=
  let ni : ℤ := info.num_inputs
  let col := getCol A (vertex - 1)
  let ops : ℤ := col.sum
  let nzs := nonzeros1Padded (getRow A (ni + vertex - 1))
      (info.num_intermediates + info.num_outputs) (-(info.num_edges : ℤ))
  let res := nzs.foldl (gstep col ops) (A, 0)
  (boolClamp (jsetCol0 (jsetRow0 res.1 (ni + vertex - 1)) (vertex - 1)), res.2)

/-- `forward` from core.py: eliminate vertices 1, 2, ..., num_intermediates. -/
def forward (A : Mat) (info : GraphInfo) : Mat × ℕ :=
  (List.range info.num_intermediates).foldl
    (fun carry k =>
      let r := vertex_eliminate carry.1 ((k : ℤ) + 1) info
      (r.1, carry.2 + r.2)) (A, 0)

/-- `reverse` from core.py: eliminate vertices num_intermediates, ..., 2, 1. -/
def reverse (A : Mat) (info : GraphInfo) : Mat × ℕ :=
  ((List.range info.num_intermediates).reverse).foldl
    (fun carry k =>
      let r := vertex_eliminate carry.1 ((k : ℤ) + 1) info
      (r.1, carry.2 + r.2)) (A, 0)

/-- `jnp.trim_zeros` with the default filter: strips leading and trailing
zeros, keeping interior zeros. -/
def trimZeros (l : List ℤ) : List ℤ :=
  ((l.dropWhile (fun x => x == 0)).reverse.dropWhile (fun x => x == 0)).reverse

/-- `jnp.delete(A, i, axis=0)` (negative index wraps; the uses below are all
in bounds after wrapping). -/
def deleteRow (A : Mat) (i : ℤ) : Mat :=
  match resolv (nrows A) i with
  | some r => A.eraseIdx r
  | none => A

/-- `jnp.delete(A, j, axis=1)`. -/
def deleteCol (A : Mat) (j : ℤ) : Mat :=
  match resolv (ncols A) j with
  | some c => A.map (fun row => row.eraseIdx c)
  | none => A

/-- Body of the `lax.scan` in `safe_pre_eliminations_gpu`: carry the matrix,
emit the 1-based label of an eliminated vertex or 0. -/
def spe_step (info : GraphInfo) : Mat × List ℤ → ℕ → Mat × List ℤ :=
  fun carry vertex =>
    let M := carry.1
    let rowFlag := (getRow M ((vertex : ℤ) + (info.num_inputs : ℤ))).sum = 1
    let colFlag := (getCol M (vertex : ℤ)).sum = 1
    if rowFlag ∧ colFlag then
      ((vertex_eliminate_gpu M ((vertex : ℤ) + 1) info).1, carry.2 ++ [(vertex : ℤ) + 1])
    else (M, carry.2 ++ [0])

/-- `safe_pre_eliminations_gpu` from core.py, including its use of
`jnp.trim_zeros` (which keeps interior 0 markers) and the deletion loop over
the reversed trimmed index list (a 0 marker deletes row `num_inputs - 1` and,
via negative-index wrapping, the last column). -/
def safe_pre_eliminations_gpu (A : Mat) (info : GraphInfo) : Mat × GraphInfo × ℕ :=
  let ni := info.num_inputs
  let res := (List.range info.num_intermediates).foldl (spe_step info) (A, [])
  let idxs := trimZeros res.2
  let Mdel := idxs.reverse.foldl
    (fun M idx => deleteCol (deleteRow M (idx - 1 + (ni : ℤ))) (idx - 1)) res.1
  (Mdel, make_graph_info ni (nrows Mdel - ni) info.num_outputs, idxs.length)

/-- Runtime errors of the Python source relevant to `compress_graph`. -/
inductive PyError where
  | tooManyIndices
  | nameErr
deriving DecidableEq

/-- `compress_graph` from transforms/compression.py.  Its first statement is
`num_i, num_v, num_o = edges.at[0, 0, 0:3].get()`, which applies three
indices to the 2-dimensional edge matrix; JAX rejects this (too many indices
for a 2-dimensional array) before anything else runs.  (Were that line
repaired, the deletion branch would still stop at the undefined names
`vertex_mask` and `attn_mask`.)  The embedding therefore maps every 2-D edge
matrix to that error. -/
def compress_graph (_A : Mat) : Except PyError Mat :=
  Except.error PyError.tooManyIndices

/-! Specification-side helper definitions (used to state the claims). -/

/-- Column `c` of the matrix as a list (the weights of the edges entering
the destination vertex whose column index is `c`). -/
def colList (A : Mat) (c : ℕ) : List ℤ := A.map (fun row => row.getD c 0)

/-- Number of non-zero entries of row `r` (the out-degree of the source
vertex whose row index is `r`). -/
def rowNZcount (A : Mat) (r : ℕ) : ℕ :=
  (A.getD r []).countP (fun x => decide (x ≠ 0))

/-- Number of entries among the first `E` row-major non-zero positions of
`A` that satisfy `p` (the positions the truncated `jnp.nonzero` scan of the
source actually visits). -/
def scanCount (A : Mat) (E : ℕ) (p : ℤ × ℤ → Bool) : ℕ :=
  ((nonzeroList A).take E).countP p

/-! Concrete instances used by the claim theorems. -/

/-- GraphInfo of a graph with 1 input, 1 intermediate, 1 output
(`num_edges = int(.5*((1+1)*(1+1) - 0)) = 2`). -/
def infoA : GraphInfo := make_graph_info 1 1 1

/-- The full acyclic graph on 1 input, 1 intermediate, 1 output: edges
`(0,1)`, `(0,2)`, `(1,2)`, each of weight 1 (rows: input 0, vertex 1;
columns: vertex 1, output 2).  It has 3 non-zero entries, while
`infoA.num_edges = 2`. -/
def Mc1 : Mat := [[1, 1], [0, 1]]

/-- GraphInfo of a graph with 1 input, 2 intermediates, 1 output
(`num_edges = 4`). -/
def infoB : GraphInfo := make_graph_info 1 2 1

/-- Graph with edges `(0,3)`, `(1,2)`, `(2,3)` of weight 1 (rows: input 0,
vertices 1-2; columns: vertices 1-2, output 3).  Edge `(0,2)` is absent
(entry `(0,1)` is zero). -/
def Mc2 : Mat := [[0, 0, 1], [0, 1, 0], [0, 0, 1]]

/-- GraphInfo of a graph with 1 input, 3 intermediates, 1 output
(`num_edges = 6`). -/
def infoC : GraphInfo := make_graph_info 1 3 1

/-- Graph with edges `(0,1)`, `(1,2)`, `(2,3)`, `(2,4)`, `(3,4)` of weight 1
(rows: input 0, vertices 1-3; columns: vertices 1-3, output 4).  Vertices 1
and 3 are pass-through (one incoming, one outgoing edge); vertex 2 is not
(two outgoing edges). -/
def Mc5 : Mat := [[1, 0, 0, 0], [0, 1, 0, 0], [0, 0, 1, 1], [0, 0, 0, 1]]

/-- GraphInfo of the §8 example chain graph: 2 inputs, 3 intermediates,
1 output (`num_edges = 8`). -/
def chainInfo : GraphInfo := make_graph_info 2 3 1

/-- The §8 example chain graph: edges `(-1,1)`, `(0,1)`, `(1,2)`, `(2,3)`,
`(3,4)`, each of weight 1 (rows: inputs -1 and 0, vertices 1-3; columns:
vertices 1-3, output 4). -/
def chainM : Mat := [[1, 0, 0, 0], [1, 0, 0, 0], [0, 1, 0, 0], [0, 0, 1, 0], [0, 0, 0, 1]]

/-- The matrix both `forward` and `reverse` produce on the chain graph:
edges `(-1,4)` and `(0,4)` of weight 1. -/
def chainFinal : Mat :=
  [[0, 0, 0, 1], [0, 0, 0, 1], [0, 0, 0, 0], [0, 0, 0, 0], [0, 0, 0, 0]]

/-! Helper lemmas about the embedded array operations. -/

theorem lset_oob {α : Type} (l : List α) (n : ℕ) (a : α) (h : l.length ≤ n) :
    l.set n a = l :=
  List.set_eq_of_length_le h

theorem lset_self {α : Type} :
    ∀ (l : List α) (n : ℕ) (a : α), l[n]? = some a → l.set n a = l := by
  intro l
  induction l with
  | nil => intro n a h; simp at h
  | cons hd tl ih =>
    intro n a h
    cases n with
    | zero =>
      simp only [List.getElem?_cons_zero, Option.some_inj] at h
      simp [h]
    | succ m =>
      simp only [List.getElem?_cons_succ] at h
      simp [ih m a h]

theorem getD_getElem {α : Type} (l : List α) (n : ℕ) (d : α) (h : n < l.length) :
    l.getD n d = l[n] := by
  rw [List.getD_eq_getElem?_getD, List.getElem?_eq_getElem h, Option.getD_some]

theorem getD_mem {α : Type} (l : List α) (n : ℕ) (d : α) (h : n < l.length) :
    l.getD n d ∈ l := by
  rw [getD_getElem l n d h]
  exact List.getElem_mem h

theorem headD_eq_getD_zero {α : Type} (l : List α) (d : α) : l.headD d = l.getD 0 d := by
  cases l <;> rfl

theorem wrapI_nonneg (n : ℕ) {i : ℤ} (h0 : 0 ≤ i) : wrapI n i = i := by
  unfold wrapI
  rw [if_neg (by omega)]

theorem resolv_lt {n : ℕ} {i : ℤ} {k : ℕ} (h : resolv n i = some k) : k < n := by
  unfold resolv at h
  by_cases hc : 0 ≤ wrapI n i ∧ wrapI n i < n
  · rw [if_pos hc] at h
    injection h with hk
    omega
  · rw [if_neg hc] at h
    exact absurd h (by simp)

theorem resolv_some_of {n : ℕ} {i : ℤ} (h0 : 0 ≤ i) (h1 : i < (n : ℤ)) :
    resolv n i = some i.toNat := by
  unfold resolv
  rw [wrapI_nonneg n h0, if_pos ⟨h0, h1⟩]

theorem clampI_of_resolv {n : ℕ} {i : ℤ} {k : ℕ} (h : resolv n i = some k) :
    clampI n i = k := by
  unfold resolv at h
  unfold clampI
  by_cases hc : 0 ≤ wrapI n i ∧ wrapI n i < n
  · rw [if_pos hc] at h
    injection h with hk
    rw [if_neg (by omega)]
    omega
  · rw [if_neg hc] at h
    exact absurd h (by simp)

theorem clampI_eq_toNat {n : ℕ} {i : ℤ} (h0 : 0 ≤ i) (h1 : i < (n : ℤ)) :
    clampI n i = i.toNat :=
  clampI_of_resolv (resolv_some_of h0 h1)

theorem getE_eq (A : Mat) (r c : ℕ) : getE A r c = ((A[r]?.getD [])[c]?).getD 0 := by
  unfold getE
  rw [List.getD_eq_getElem?_getD A r, List.getD_eq_getElem?_getD]

theorem getE_setE (A : Mat) (r0 c0 : ℕ) (v : ℤ) (hrect : Rect A)
    (hr : r0 < nrows A) (hc : c0 < ncols A) (r c : ℕ) :
    getE (setE A r0 c0 v) r c = if r = r0 ∧ c = c0 then v else getE A r c := by
  have hrow : (A.getD r0 []).length = ncols A :=
    hrect (A.getD r0 []) (getD_mem A r0 [] hr)
  unfold setE
  rw [getE_eq, getE_eq, List.getElem?_set]
  by_cases h1 : r0 = r
  · subst h1
    rw [if_pos rfl, if_pos (show r0 < A.length from hr), Option.getD_some,
      List.getElem?_set]
    by_cases h2 : c0 = c
    · subst h2
      rw [if_pos rfl, if_pos (show c0 < (A.getD r0 []).length by omega),
        Option.getD_some, if_pos ⟨rfl, rfl⟩]
    · rw [if_neg h2, if_neg (by intro hcon; exact h2 hcon.2.symm),
        List.getD_eq_getElem?_getD A r0]
  · rw [if_neg h1, if_neg (by intro hcon; exact h1 hcon.1.symm)]

theorem getE_jset (A : Mat) (i j : ℤ) (v : ℤ) (hrect : Rect A) {r0 c0 : ℕ}
    (hi : resolv (nrows A) i = some r0) (hj : resolv (ncols A) j = some c0) (r c : ℕ) :
    getE (jset A i j v) r c = if r = r0 ∧ c = c0 then v else getE A r c := by
  unfold jset
  rw [hi, hj]
  exact getE_setE A r0 c0 v hrect (resolv_lt hi) (resolv_lt hj) r c

theorem jset_zero_eq_self (A : Mat) (i j : ℤ) (hrect : Rect A) (h : jget A i j = 0) :
    jset A i j 0 = A := by
  unfold jset
  cases hri : resolv (nrows A) i with
  | none => rfl
  | some r0 =>
    cases hrj : resolv (ncols A) j with
    | none => rfl
    | some c0 =>
      have hr : r0 < nrows A := resolv_lt hri
      have hc : c0 < ncols A := resolv_lt hrj
      have h0 : getE A r0 c0 = 0 := by
        unfold jget at h
        rw [clampI_of_resolv hri, clampI_of_resolv hrj] at h
        exact h
      have hrow : (A.getD r0 []).length = ncols A :=
        hrect (A.getD r0 []) (getD_mem A r0 [] hr)
      have hval : (A.getD r0 [])[c0]? = some 0 := by
        rw [List.getElem?_eq_getElem (by omega)]
        unfold getE at h0
        rw [getD_getElem (A.getD r0 []) c0 0 (by omega)] at h0
        rw [h0]
      have hrowset : (A.getD r0 []).set c0 0 = A.getD r0 [] :=
        lset_self (A.getD r0 []) c0 0 hval
      have hmain : setE A r0 c0 0 = A := by
        unfold setE
        rw [hrowset]
        apply lset_self
        rw [List.getD_eq_getElem?_getD, List.getElem?_eq_getElem hr, Option.getD_some]
      exact hmain

theorem zfold_snd (A1 : Mat) (p : ℤ × ℤ → Bool) (tgt : ℤ × ℤ → ℤ × ℤ) (w : ℤ) :
    ∀ (l : List (ℤ × ℤ)) (M : Mat) (n : ℕ),
      (l.foldl (zstep A1 p tgt w) (M, n)).2 = n + l.countP p := by
  intro l
  induction l with
  | nil => intro M n; simp
  | cons a t ih =>
    intro M n
    by_cases hp : p a = true
    · have hstep : zstep A1 p tgt w (M, n) a
          = (jset M (tgt a).1 (tgt a).2 (jget A1 a.1 a.2 * w), n + 1) := by
        simp [zstep, hp]
      rw [List.foldl_cons, hstep, ih, List.countP_cons, if_pos hp]
      omega
    · have hstep : zstep A1 p tgt w (M, n) a = (M, n) := by
        simp [zstep, hp]
      rw [List.foldl_cons, hstep, ih, List.countP_cons, if_neg hp]
      omega

theorem zfold_nomatch (A1 : Mat) (p : ℤ × ℤ → Bool) (tgt : ℤ × ℤ → ℤ × ℤ) (w : ℤ) :
    ∀ (l : List (ℤ × ℤ)) (M : Mat) (n : ℕ),
      l.countP p = 0 → l.foldl (zstep A1 p tgt w) (M, n) = (M, n) := by
  intro l
  induction l with
  | nil => intro M n _; rfl
  | cons a t ih =>
    intro M n h
    rw [List.countP_cons] at h
    have hp : ¬(p a = true) := by
      intro hp
      rw [if_pos hp] at h
      omega
    have hstep : zstep A1 p tgt w (M, n) a = (M, n) := by
      simp [zstep, hp]
    rw [List.foldl_cons, hstep]
    exact ih M n (by omega)

theorem gfold_snd (col : List ℤ) (ops : ℤ) :
    ∀ (l : List ℤ) (M : Mat) (q : ℤ),
      (l.foldl (gstep col ops) (M, q)).2 =
        q + ops * (l.countP (fun nz => decide ((-1 : ℤ) < nz)) : ℤ) := by
  intro l
  induction l with
  | nil => intro M q; simp
  | cons a t ih =>
    intro M q
    by_cases ha : (-1 : ℤ) < a
    · have hstep : gstep col ops (M, q) a = (jaddCol M a col, q + ops) := by
        simp [gstep, ha]
      rw [List.foldl_cons, hstep, ih, List.countP_cons, if_pos (by simpa using ha)]
      push_cast
      ring
    · have hstep : gstep col ops (M, q) a = (jaddCol M a col, q) := by
        simp [gstep, ha]
      rw [List.foldl_cons, hstep, ih, List.countP_cons, if_neg (by simpa using ha)]
      push_cast
      ring

theorem nonzeros1From_length :
    ∀ (l : List ℤ) (k : ℕ),
      (nonzeros1From k l).length = l.countP (fun x => decide (x ≠ 0)) := by
  intro l
  induction l with
  | nil => intro k; rfl
  | cons x t ih =>
    intro k
    rw [List.countP_cons]
    unfold nonzeros1From
    by_cases hx : x = 0
    · rw [if_neg (by simp [hx]), ih]
      simp [hx]
    · rw [if_pos hx, List.length_cons, ih]
      simp [hx]

theorem nonzeros1From_mem_le :
    ∀ (l : List ℤ) (k : ℕ) (x : ℤ), x ∈ nonzeros1From k l → (k : ℤ) ≤ x := by
  intro l
  induction l with
  | nil => intro k x h; simp [nonzeros1From] at h
  | cons y t ih =>
    intro k x h
    unfold nonzeros1From at h
    by_cases hy : y = 0
    · rw [if_neg (by simp [hy])] at h
      have := ih (k + 1) x h
      omega
    · rw [if_pos hy] at h
      rcases List.mem_cons.mp h with h1 | h2
      · omega
      · have := ih (k + 1) x h2
        omega

theorem getE_boolClamp (A : Mat) (r c : ℕ) :
    getE (boolClamp A) r c = 0 ∨ getE (boolClamp A) r c = 1 := by
  unfold boolClamp
  rw [getE_eq, List.getElem?_map]
  cases h : A[r]? with
  | none => simp
  | some row =>
    simp only [Option.map_some', Option.getD_some]
    rw [List.getElem?_map]
    cases h2 : row[c]? with
    | none => simp
    | some x =>
      simp only [Option.map_some', Option.getD_some]
      by_cases hx : x = 0 <;> simp [hx]

/-! Claim theorems. -/

/-- C1: `front_eliminate` does NOT accumulate additively into the entry
`(i,k)`: it overwrites it with the product (`.set`, not `.add`).  On `Mc1`,
front-eliminating edge `(0,1)` writes `w(1,2)*w(0,1) = 1` over the existing
parallel edge `(0,2)` of weight 1; additive accumulation of the two parallel
paths would give `1 + 1*1 = 2`.  The first conjunct evaluates the code at the
failing input; the remaining conjuncts state the additive prediction of the
claim and that the code's result differs from it. -/
theorem c1_front_overwrites_instead_of_accumulating :
    front_eliminate Mc1 (0, 1) infoA = ([[0, 1], [0, 1]], 1) ∧
    getE Mc1 0 1 + getE Mc1 1 1 * getE Mc1 0 0 = 2 ∧
    getE (front_eliminate Mc1 (0, 1) infoA).1 0 1 ≠
      getE Mc1 0 1 + getE Mc1 1 1 * getE Mc1 0 0 := by
  refine ⟨by decide, by decide, by decide⟩

/-- C3: on the acyclic §3-conformant matrix `Mc1` (all three possible edges
of the 1-input/1-intermediate/1-output layout present), `vertex_eliminate`
of vertex 1 leaves the entry `(1,1)` — row of vertex 1 (row index
`1 + num_inputs - 1 = 1`), column of output 2 — equal to 1: the non-zero
scan is truncated at `num_edges = 2 < 3` actual non-zeros, so the outgoing
edge `(1,2)` is never back-eliminated and row 1 is not zeroed. -/
theorem c3_vertex_eliminate_row_not_zeroed :
    vertex_eliminate Mc1 1 infoA = ([[0, 1], [0, 1]], 1) ∧
    getE (vertex_eliminate Mc1 1 infoA).1 1 1 = 1 ∧
    getE (vertex_eliminate Mc1 1 infoA).1 1 1 ≠ 0 := by
  refine ⟨by decide, by decide, by decide⟩

/-- C4: on `Mc1`, composing `front_eliminate` on the single incoming edge
`(0,1)` of vertex 1 and `back_eliminate` on its single outgoing edge `(1,2)`
gives the same result `([[0,1],[0,0]], 1)` in both orders, but
`vertex_eliminate Mc1 1` returns `([[0,1],[0,1]], 1)` — a different matrix
(its truncated scan never back-eliminates `(1,2)`), refuting the claimed
equivalence. -/
theorem c4_vertex_eliminate_differs_from_composition :
    (back_eliminate (front_eliminate Mc1 (0, 1) infoA).1 (1, 2) infoA).1 = [[0, 1], [0, 0]] ∧
    (front_eliminate Mc1 (0, 1) infoA).2 +
      (back_eliminate (front_eliminate Mc1 (0, 1) infoA).1 (1, 2) infoA).2 = 1 ∧
    (front_eliminate (back_eliminate Mc1 (1, 2) infoA).1 (0, 1) infoA).1 = [[0, 1], [0, 0]] ∧
    (back_eliminate Mc1 (1, 2) infoA).2 +
      (front_eliminate (back_eliminate Mc1 (1, 2) infoA).1 (0, 1) infoA).2 = 1 ∧
    vertex_eliminate Mc1 1 infoA = ([[0, 1], [0, 1]], 1) ∧
    ([[0, 1], [0, 1]] : Mat) ≠ [[0, 1], [0, 0]] := by
  refine ⟨by decide, by decide, by decide, by decide, by decide, by decide⟩

/-- C5: on `Mc5` the scan eliminates exactly vertices 1 and 3 (the emitted
marker list is `[1, 0, 3]`, with an interior 0 for the skipped vertex 2), but
`jnp.trim_zeros` keeps that interior 0, so the deletion loop runs for the
marker 0 as well — deleting row `num_inputs - 1 = 0` (the input row) and,
through negative-index wrapping, the last (output) column — and the function
returns removed-count 3 instead of 2, with a 1x1 matrix left from the
original 4x4 instead of the 2x2 matrix the claim requires. -/
theorem c5_safe_pre_eliminations_miscounts :
    trimZeros ((List.range infoC.num_intermediates).foldl (spe_step infoC) (Mc5, [])).2
        = [1, 0, 3] ∧
    safe_pre_eliminations_gpu Mc5 infoC = ([[0]], make_graph_info 1 0 1, 3) ∧
    (safe_pre_eliminations_gpu Mc5 infoC).2.2 ≠ 2 := by
  refine ⟨by decide, by decide, by decide⟩

/-- C7 counterexample: on the §8 chain graph, the total op-counts of
`forward` and `reverse` are not both 3 (they are 6 and 4: vertex 1 has two
incoming edges, so each elimination step costs in-degree x out-degree). -/
theorem c7_chain_opcount_not_three :
    ¬((forward chainM chainInfo).2 = 3 ∧ (reverse chainM chainInfo).2 = 3) := by
  decide

/-- C7 amended: on the §8 chain graph, `forward` returns total op-count 6
and `reverse` returns 4; both return the same final matrix, whose
input-to-output entries `(-1,4)` (position `(0,3)`) and `(0,4)` (position
`(1,3)`) equal 1 and whose other entries are 0. -/
theorem c7_chain_forward_reverse :
    forward chainM chainInfo = (chainFinal, 6) ∧
    reverse chainM chainInfo = (chainFinal, 4) ∧
    getE chainFinal 0 3 = 1 ∧ getE chainFinal 1 3 = 1 := by
  refine ⟨by decide, by decide, by decide, by decide⟩

/-- C9: `compress_graph` cannot compress anything: applied to any 2-D edge
matrix it raises (its first statement indexes the 2-D matrix with three
indices, and its deletion branch uses the undefined names `vertex_mask` and
`attn_mask`), so in particular the claimed idempotence fails — there is no
result to compare. -/
theorem c9_compress_graph_raises :
    ∀ A : Mat, compress_graph A = Except.error PyError.tooManyIndices :=
  fun _ => rfl

/-- C8 counterexample: for 1 input, 2 intermediates, 1 output the code
computes `num_edges = int(.5*((1+2)*(2+1) - 2*(2-1)//2)) = 4`, while the
claimed expression `0.5*((1+2)*(2+1) - 2*(2-1)) = 3.5` is not even an
integer and differs from 4. -/
theorem c8_num_edges_formula_counterexample :
    (make_graph_info 1 2 1).num_edges = 4 ∧
    ¬(((make_graph_info 1 2 1).num_edges : ℚ) =
        (1 / 2) * (((1 + 2) * (2 + 1) : ℚ) - 2 * (2 - 1))) := by
  have h : (make_graph_info 1 2 1).num_edges = 4 := by decide
  refine ⟨h, ?_⟩
  rw [h]
  norm_num

/-- C2 counterexample: edge `(0,2)` of `Mc2` has weight zero, yet
`front_eliminate Mc2 (0,2)` is not a no-op with zero op-count: vertex 2 has
the outgoing edge `(2,3)`, so the scan overwrites entry `(0,3)` (which was 1)
with `w(2,3) * 0 = 0` and reports one operation. -/
theorem c2_zero_edge_counterexample :
    jget Mc2 (0 + (infoB.num_inputs : ℤ) - 1) (2 - 1) = 0 ∧
    ¬((front_eliminate Mc2 (0, 2) infoB).1 = Mc2 ∧
        (front_eliminate Mc2 (0, 2) infoB).2 = 0) := by
  refine ⟨by decide, by decide⟩

/-- C2 amended: for an edge `(i,j)` whose current weight is zero,
`front_eliminate` returns an op-count equal to the number of scanned
non-zero entries whose source label is `j` (and `back_eliminate` the number
whose destination label is `i`), overwriting the corresponding entries with
zero; the call is a no-op returning `(edges, 0)` precisely when that count
is zero.  The two inequality hypotheses keep the labels away from the
`-num_edges` padding sentinel of the fixed-size scan. -/
theorem c2_zero_edge_behavior (A : Mat) (info : GraphInfo) (i j : ℤ)
    (hrect : Rect A)
    (hw : jget A (i + (info.num_inputs : ℤ) - 1) (j - 1) = 0)
    (hpf : -(info.num_edges : ℤ) - (info.num_inputs : ℤ) + 1 ≠ j)
    (hpb : -(info.num_edges : ℤ) + 1 ≠ i) :
    (front_eliminate A (i, j) info).2
        = scanCount A info.num_edges (front_p (info.num_inputs : ℤ) j) ∧
    (scanCount A info.num_edges (front_p (info.num_inputs : ℤ) j) = 0 →
      front_eliminate A (i, j) info = (A, 0)) ∧
    (back_eliminate A (i, j) info).2
        = scanCount A info.num_edges (back_p i) ∧
    (scanCount A info.num_edges (back_p i) = 0 →
      back_eliminate A (i, j) info = (A, 0)) := by
  have hA1 : jset A (i + (info.num_inputs : ℤ) - 1) (j - 1) 0 = A :=
    jset_zero_eq_self A _ _ hrect hw
  have hpadf : front_p (info.num_inputs : ℤ) j
      (-(info.num_edges : ℤ), -(info.num_edges : ℤ)) = false := by
    unfold front_p
    simp only [decide_eq_false_iff_not]
    exact hpf
  have hpadb : back_p i (-(info.num_edges : ℤ), -(info.num_edges : ℤ)) = false := by
    unfold back_p
    simp only [decide_eq_false_iff_not]
    exact hpb
  have hcountf : (nonzerosPadded A info.num_edges).countP
      (front_p (info.num_inputs : ℤ) j)
      = scanCount A info.num_edges (front_p (info.num_inputs : ℤ) j) := by
    simp only [nonzerosPadded, scanCount]
    rw [List.countP_append, List.countP_replicate, hpadf]
    simp
  have hcountb : (nonzerosPadded A info.num_edges).countP (back_p i)
      = scanCount A info.num_edges (back_p i) := by
    simp only [nonzerosPadded, scanCount]
    rw [List.countP_append, List.countP_replicate, hpadb]
    simp
  refine ⟨?_, ?_, ?_, ?_⟩
  · simp only [front_eliminate]
    rw [hA1, hw, zfold_snd, hcountf]
    omega
  · intro h0
    simp only [front_eliminate]
    rw [hA1, hw]
    exact zfold_nomatch _ _ _ _ _ A 0 (by rw [hcountf]; exact h0)
  · simp only [back_eliminate]
    rw [hA1, hw, zfold_snd, hcountb]
    omega
  · intro h0
    simp only [back_eliminate]
    rw [hA1, hw]
    exact zfold_nomatch _ _ _ _ _ A 0 (by rw [hcountb]; exact h0)

/-- C2 witness: the amended statement applied to `Mc2` and the zero-weight
edge `(0,2)`, whose scan count (edges leaving vertex 2) is 1. -/
theorem c2_zero_edge_behavior_witness :
    (Rect Mc2 ∧
      jget Mc2 (0 + (infoB.num_inputs : ℤ) - 1) (2 - 1) = 0 ∧
      -(infoB.num_edges : ℤ) - (infoB.num_inputs : ℤ) + 1 ≠ 2 ∧
      -(infoB.num_edges : ℤ) + 1 ≠ 0) ∧
    (front_eliminate Mc2 (0, 2) infoB).2
      = scanCount Mc2 infoB.num_edges (front_p (infoB.num_inputs : ℤ) 2) :=
  ⟨by refine ⟨by decide, by decide, by decide, by decide⟩,
    (c2_zero_edge_behavior Mc2 infoB 0 2 (by decide) (by decide) (by decide)
      (by decide)).1⟩

/-- C6: the op-count returned by `vertex_eliminate_gpu` equals the sum of
the weights of the column of `v` (all edges entering `v`) times the number
of non-zero entries of the row of `v` (the touched outgoing edges), and
every entry of the returned matrix is 0 or 1.  The shape hypotheses say the
matrix conforms to the §3 layout for `info`, `v` is an intermediate vertex,
and `num_edges` is positive (so the padding sentinel `-num_edges` is not
counted). -/
theorem c6_gpu_opcount_and_clamp (A : Mat) (info : GraphInfo) (v : ℕ)
    (hv1 : 1 ≤ v) (hv2 : v ≤ info.num_intermediates)
    (hE : 1 ≤ info.num_edges)
    (hlen : nrows A = info.num_inputs + info.num_intermediates)
    (hrowlen : ∀ row ∈ A, row.length = info.num_intermediates + info.num_outputs) :
    (vertex_eliminate_gpu A (v : ℤ) info).2 =
      (colList A (v - 1)).sum * (rowNZcount A (info.num_inputs + v - 1) : ℤ) ∧
    ∀ r c : ℕ,
      getE (vertex_eliminate_gpu A (v : ℤ) info).1 r c = 0 ∨
      getE (vertex_eliminate_gpu A (v : ℤ) info).1 r c = 1 := by
  have hAlen : A.length = info.num_inputs + info.num_intermediates := hlen
  have hApos : 0 < A.length := by omega
  have hncols : ncols A = info.num_intermediates + info.num_outputs := by
    unfold ncols
    have h0 : A.headD [] ∈ A := by
      rw [headD_eq_getD_zero]
      exact getD_mem A 0 [] hApos
    exact hrowlen _ h0
  have hclampc : clampI (ncols A) ((v : ℤ) - 1) = v - 1 := by
    rw [clampI_eq_toNat (by omega) (by rw [hncols]; push_cast; omega)]
    omega
  have hcol : getCol A ((v : ℤ) - 1) = colList A (v - 1) := by
    unfold getCol colList
    rw [hclampc]
  have hclampr : clampI (nrows A) ((info.num_inputs : ℤ) + (v : ℤ) - 1)
      = info.num_inputs + v - 1 := by
    rw [clampI_eq_toNat (by omega) (by unfold nrows; rw [hAlen]; push_cast; omega)]
    omega
  have hrow : getRow A ((info.num_inputs : ℤ) + (v : ℤ) - 1)
      = A.getD (info.num_inputs + v - 1) [] := by
    unfold getRow
    rw [hclampr]
  have hrowmem : A.getD (info.num_inputs + v - 1) [] ∈ A :=
    getD_mem A _ [] (by omega)
  have hrowlenA : (A.getD (info.num_inputs + v - 1) []).length
      = info.num_intermediates + info.num_outputs := hrowlen _ hrowmem
  have hlen1 : (nonzeros1 (A.getD (info.num_inputs + v - 1) [])).length
      = rowNZcount A (info.num_inputs + v - 1) :=
    nonzeros1From_length _ 0
  have htake : (nonzeros1 (A.getD (info.num_inputs + v - 1) [])).take
      (info.num_intermediates + info.num_outputs)
      = nonzeros1 (A.getD (info.num_inputs + v - 1) []) := by
    apply List.take_of_length_le
    rw [hlen1]
    calc rowNZcount A (info.num_inputs + v - 1)
        ≤ (A.getD (info.num_inputs + v - 1) []).length := List.countP_le_length _
      _ = info.num_intermediates + info.num_outputs := hrowlenA
  have hreal : (nonzeros1 (A.getD (info.num_inputs + v - 1) [])).countP
      (fun nz => decide ((-1 : ℤ) < nz))
      = (nonzeros1 (A.getD (info.num_inputs + v - 1) [])).length := by
    apply List.countP_eq_length.mpr
    intro x hx
    have := nonzeros1From_mem_le _ 0 x hx
    simp only [decide_eq_true_eq]
    omega
  have hpad : (fun nz => decide ((-1 : ℤ) < nz)) (-(info.num_edges : ℤ)) = false := by
    simp only [decide_eq_false_iff_not]
    omega
  constructor
  · simp only [vertex_eliminate_gpu]
    rw [hcol, hrow, gfold_snd]
    simp only [nonzeros1Padded]
    rw [htake, List.countP_append, List.countP_replicate,
      if_neg (by simp only [decide_eq_true_eq]; omega), hreal, hlen1]
    push_cast
    ring
  · intro r c
    simp only [vertex_eliminate_gpu]
    exact getE_boolClamp _ r c

/-- C6 witness: the op-count law applied to the 2x2 identity-patterned
matrix with one input, one intermediate (v = 1) and one output: column sum 1,
one outgoing edge, op-count 1. -/
theorem c6_gpu_opcount_witness :
    (1 ≤ 1 ∧ 1 ≤ infoA.num_intermediates ∧ 1 ≤ infoA.num_edges ∧
      nrows [[(1 : ℤ), 0], [0, 1]] = infoA.num_inputs + infoA.num_intermediates ∧
      ∀ row ∈ [[(1 : ℤ), 0], [0, 1]],
        row.length = infoA.num_intermediates + infoA.num_outputs) ∧
    (vertex_eliminate_gpu [[(1 : ℤ), 0], [0, 1]] ((1 : ℕ) : ℤ) infoA).2 =
      (colList [[(1 : ℤ), 0], [0, 1]] 0).sum *
        (rowNZcount [[(1 : ℤ), 0], [0, 1]] 1 : ℤ) :=
  ⟨by refine ⟨by decide, by decide, by decide, by decide, by decide⟩,
    (c6_gpu_opcount_and_clamp [[(1 : ℤ), 0], [0, 1]] infoA 1 (by decide) (by decide)
      (by decide) (by decide) (by decide)).1⟩

/-- C8 amended: `make_graph_info` computes
`num_edges = int(.5*((ni+nv)*(nv+no) - nv*(nv-1)//2))`, i.e. the floor of
half of `(ni+nv)*(nv+no) - nv*(nv-1)/2` (the inner quotient is exact since
`nv*(nv-1)` is even).  This disagrees with the claimed expression
`0.5*((ni+nv)*(nv+no) - nv*(nv-1))` at the counterexample input `(1,2,1)`.
The value is a natural number, hence always a non-negative integer. -/
theorem c8_num_edges_formula_amended (ni nv no : ℕ) :
    (make_graph_info ni nv no).num_edges =
      ⌊((((ni + nv) * (nv + no) : ℕ) : ℚ) - ((nv * (nv - 1) : ℕ) : ℚ) / 2) / 2⌋₊ := by
  have hev : Even (nv * (nv - 1)) := by
    cases nv with
    | zero => simp
    | succ m => simpa [mul_comm] using Nat.even_mul_succ_self m
  obtain ⟨t, ht⟩ := hev
  have hT : nv * (nv - 1) / 2 = t := by omega
  have h1 : nv * (nv - 1) ≤ nv * nv := Nat.mul_le_mul_left nv (Nat.sub_le nv 1)
  have h2 : nv * nv ≤ (ni + nv) * (nv + no) :=
    Nat.mul_le_mul (by omega) (by omega)
  have hle : nv * (nv - 1) / 2 ≤ (ni + nv) * (nv + no) := by omega
  have hcast : ((nv * (nv - 1) : ℕ) : ℚ) / 2 = ((nv * (nv - 1) / 2 : ℕ) : ℚ) := by
    rw [hT, ht]
    push_cast
    ring
  rw [hcast, ← Nat.cast_sub hle]
  rw [show ((2 : ℚ)) = ((2 : ℕ) : ℚ) by norm_num]
  rw [Nat.floor_div_nat, Nat.floor_natCast]
  rfl

/-- C10: `add_edge` writes the constant 1 (not a caller-supplied weight) at
row `pos.1 + num_inputs - 1`, column `pos.2 - 1`, and leaves every other
entry unchanged, whenever that position is in bounds. -/
theorem c10_add_edge_frame (A : Mat) (info : GraphInfo) (pos : ℤ × ℤ)
    (hrect : Rect A)
    (hr0 : 0 ≤ pos.1 + (info.num_inputs : ℤ) - 1)
    (hr1 : pos.1 + (info.num_inputs : ℤ) - 1 < (nrows A : ℤ))
    (hc0 : 0 ≤ pos.2 - 1) (hc1 : pos.2 - 1 < (ncols A : ℤ)) :
    getE (add_edge A pos info)
        (pos.1 + (info.num_inputs : ℤ) - 1).toNat (pos.2 - 1).toNat = 1 ∧
    ∀ r c : ℕ,
      ¬(r = (pos.1 + (info.num_inputs : ℤ) - 1).toNat ∧ c = (pos.2 - 1).toNat) →
        getE (add_edge A pos info) r c = getE A r c := by
  have hi := resolv_some_of hr0 hr1
  have hj := resolv_some_of hc0 hc1
  have hchar := getE_jset A (pos.1 + (info.num_inputs : ℤ) - 1) (pos.2 - 1) 1
    hrect hi hj
  constructor
  · unfold add_edge
    rw [hchar, if_pos ⟨rfl, rfl⟩]
  · intro r c hne
    unfold add_edge
    rw [hchar, if_neg hne]

/-- C10 witness: adding edge `(1, 2)` on `Mc2` writes 1 at position `(1, 1)`
(row `1 + num_inputs - 1`, column `2 - 1`). -/
theorem c10_add_edge_frame_witness :
    (Rect Mc2 ∧
      0 ≤ ((1 : ℤ), (2 : ℤ)).1 + (infoB.num_inputs : ℤ) - 1 ∧
      ((1 : ℤ), (2 : ℤ)).1 + (infoB.num_inputs : ℤ) - 1 < (nrows Mc2 : ℤ) ∧
      0 ≤ ((1 : ℤ), (2 : ℤ)).2 - 1 ∧
      ((1 : ℤ), (2 : ℤ)).2 - 1 < (ncols Mc2 : ℤ)) ∧
    getE (add_edge Mc2 ((1 : ℤ), (2 : ℤ)) infoB)
      (((1 : ℤ), (2 : ℤ)).1 + (infoB.num_inputs : ℤ) - 1).toNat
      ((((1 : ℤ), (2 : ℤ)).2 - 1)).toNat = 1 :=
  ⟨by refine ⟨by decide, by decide, by decide, by decide, by decide⟩,
    (c10_add_edge_frame Mc2 infoB ((1 : ℤ), (2 : ℤ)) (by decide) (by decide)
      (by decide) (by decide) (by decide)).1⟩

end Graphax
